import Mathlib

/-!
Verification of the fireodm document-instance lifecycle engine.

This file gives a shallow embedding of the core of `src/core/base-model.ts`,
`src/core/transaction-manager.ts` and `src/core/context.ts`:

* `Value` models a JavaScript/Firestore field value as the code dynamically
  inspects it (`instanceof Date / Timestamp / GeoPoint / FieldValue /
  DocumentReference / BaseModel`, `null`, `undefined`, functions, plain data);
* `Inst` models a live `BaseModel` object: optional `id`, the own enumerable
  data properties (an association list, preserving JS insertion order), and
  the `_populatedRelations` cache;
* `ModelMeta` models the decorator metadata (`@Collection`, `@Relation`,
  `@TimestampField(autoFill)`, `@BooleanField(defaultValue)`) as resolved by
  `getCollectionName` / `getRelationMetadata`;
* effects (store writes, enqueues into the ambient transaction/batch context,
  hook invocations, `console.warn` / `console.error` calls, relation fetches)
  are made observable as an explicit `Event` trace;
* fallible store calls are parameters of the environment (`Except`-valued),
  so that both the success and the failure path of the TypeScript code are
  represented.
-/

/-- Opaque Firestore `FieldValue` sentinels passed through by the mapper.
`FieldValue.delete()` is a singleton in the underlying client library, so
plain equality on this type models the reference equality test
`value === FieldValue.delete()` used in `_updateLocalState`. -/
inductive Sentinel where
  | serverTimestamp
  | increment (n : Int)
  | deleteField
deriving DecidableEq

/-- A JavaScript value as dynamically classified by the mapper code.
`vinst oid tag` stands for a resolved `BaseModel` relation value: the code
only ever inspects its `id` (`oid`); `tag` keeps distinct instances distinct.
`vother` stands for any remaining plain value (arrays, maps, objects) that the
code passes through untouched. -/
inductive Value where
  | vundef
  | vnull
  | vstr (s : String)
  | vnum (n : Int)
  | vbool (b : Bool)
  | vdate (ms : Int)
  | vtimestamp (ms : Int)
  | vgeo (lat lon : Int)
  | vfv (f : Sentinel)
  | vdocRef (coll : String) (docId : String)
  | vinst (oid : Option String) (tag : Nat)
  | vother (tag : Nat)
  | vfunc
deriving DecidableEq

/-- Relation metadata, as produced by the `@Relation` decorator and read back
by `getRelationMetadata`: property name, the related model's collection name
(`relatedModel()._getCollectionName()`), and the `lazy` flag. -/
structure RelationMeta where
  propertyName : String
  relatedColl : String
  lazy : Bool
deriving DecidableEq

/-- Decorator metadata of one model class (the top-level-collection case:
no `@SubCollectionModel` parent). `tsAutoFill` lists the
`@TimestampField({autoFill: true})` properties, `boolDefaults` the
`@BooleanField({defaultValue})` properties. -/
structure ModelMeta where
  typeName : String
  collName : String
  relations : List RelationMeta
  tsAutoFill : List String
  boolDefaults : List (String × Bool)
deriving DecidableEq

/-- A live `BaseModel` object: the optional identity key `id`, the own
enumerable data properties in insertion order, and the
`_populatedRelations` cache. -/
structure Inst where
  id : Option String
  fields : List (String × Value)
  cache : List (String × Value)
deriving DecidableEq

/-- The kind of ambient context held by the `AsyncLocalStorage` slot
(`transactionContext`): a Firestore `Transaction` or a `WriteBatch`.
`Option CtxKind` models `transactionContext.getStore()`. -/
inductive CtxKind where
  | transaction
  | batch
deriving DecidableEq

/-- Observable effects of the embedded operations. -/
inductive Event where
  | hookBeforeSave
  | hookAfterSave (wr : Nat)
  | hookBeforeUpdate
  | hookAfterUpdate (wr : Nat)
  | warnRelNoId (field : String)
  | warnRelUnexpected (field : String)
  | warnNotRelation (field : String)
  | warnEmptyUpdate
  | logError
  | enqueueSet (ck : CtxKind) (coll docId : String) (data : List (String × Value))
  | directSet (coll docId : String) (data : List (String × Value))
  | enqueueUpdate (ck : CtxKind) (coll docId : String) (data : List (String × Value))
  | directUpdate (coll docId : String) (data : List (String × Value))
  | relFetch (field coll docId : String)
  | getDoc (coll docId : String)
deriving DecidableEq

/-! ## Association-list primitives

JS own enumerable properties behave as an insertion-ordered association list
with unique keys: lookup, assignment (replace in place or append) and
`delete`. -/

/-- Lookup of an own property (`obj[k]`, absent key gives `undefined` which we
render as `none`). -/
def getF : List (String × Value) → String → Option Value
  | [], _ => none
  | (k', v) :: rest, k => if k' = k then some v else getF rest k

/-- Property assignment `obj[k] = v`: replaces the first (for unique-key lists:
the only) binding in place, else appends. -/
def setEntry : List (String × Value) → String → Value → List (String × Value)
  | [], k, v => [(k, v)]
  | (k', w) :: rest, k, v =>
      if k' = k then (k, v) :: rest else (k', w) :: setEntry rest k v

/-- Property deletion `delete obj[k]`. -/
def removeEntry (l : List (String × Value)) (k : String) : List (String × Value) :=
  l.filter (fun p => p.1 ≠ k)

/-- Copying every binding of `l` onto `base` in order
(`for (k in src) dst[k] = src[k]`). -/
def overwriteFields (base l : List (String × Value)) : List (String × Value) :=
  l.foldl (fun acc p => setEntry acc p.1 p.2) base

@[simp] theorem getF_nil (k : String) : getF [] k = none := rfl

theorem getF_cons (k' k : String) (v : Value) (rest : List (String × Value)) :
    getF ((k', v) :: rest) k = if k' = k then some v else getF rest k := rfl

@[simp] theorem getF_setEntry_self (l : List (String × Value)) (k : String) (v : Value) :
    getF (setEntry l k v) k = some v := by
  induction l with
  | nil => simp [setEntry, getF]
  | cons p rest ih =>
      obtain ⟨k', w⟩ := p
      by_cases h : k' = k
      · simp [setEntry, h, getF]
      · simp [setEntry, h, getF, ih]

theorem getF_setEntry_ne (l : List (String × Value)) (k k' : String) (v : Value)
    (h : k' ≠ k) : getF (setEntry l k v) k' = getF l k' := by
  have hk : ¬ k = k' := fun hh => h hh.symm
  induction l with
  | nil => simp [setEntry, getF, hk]
  | cons p rest ih =>
      obtain ⟨k₀, w⟩ := p
      by_cases h0 : k₀ = k
      · subst h0
        simp [setEntry, getF, hk]
      · by_cases h1 : k₀ = k'
        · rw [show setEntry ((k₀, w) :: rest) k v = (k₀, w) :: setEntry rest k v by
                simp [setEntry, h0]]
          rw [getF_cons, getF_cons, if_pos h1, if_pos h1]
        · rw [show setEntry ((k₀, w) :: rest) k v = (k₀, w) :: setEntry rest k v by
                simp [setEntry, h0]]
          rw [getF_cons, getF_cons, if_neg h1, if_neg h1, ih]

@[simp] theorem getF_removeEntry_self (l : List (String × Value)) (k : String) :
    getF (removeEntry l k) k = none := by
  induction l with
  | nil => simp [removeEntry]
  | cons p rest ih =>
      obtain ⟨k', v⟩ := p
      by_cases h : k' = k
      · simpa [removeEntry, h] using ih
      · simpa [removeEntry, h, getF_cons] using ih

theorem getF_removeEntry_ne (l : List (String × Value)) (k k' : String)
    (h : k' ≠ k) : getF (removeEntry l k) k' = getF l k' := by
  induction l with
  | nil => simp [removeEntry]
  | cons p rest ih =>
      obtain ⟨k₀, v⟩ := p
      by_cases h0 : k₀ = k
      · have hk : ¬ k₀ = k' := by
          intro hh
          exact h (hh.symm.trans h0)
        rw [show removeEntry ((k₀, v) :: rest) k = removeEntry rest k by
              simp [removeEntry, h0]]
        rw [ih, getF_cons, if_neg hk]
      · by_cases h1 : k₀ = k'
        · rw [show removeEntry ((k₀, v) :: rest) k = (k₀, v) :: removeEntry rest k by
                simp [removeEntry, h0]]
          rw [getF_cons, getF_cons, if_pos h1, if_pos h1]
        · rw [show removeEntry ((k₀, v) :: rest) k = (k₀, v) :: removeEntry rest k by
                simp [removeEntry, h0]]
          rw [getF_cons, getF_cons, if_neg h1, if_neg h1, ih]

theorem getF_eq_none_of_not_mem_keys (l : List (String × Value)) (k : String)
    (h : k ∉ l.map Prod.fst) : getF l k = none := by
  induction l with
  | nil => rfl
  | cons p rest ih =>
      obtain ⟨k', v⟩ := p
      simp only [List.map_cons, List.mem_cons] at h
      push_neg at h
      have hne : ¬ k' = k := fun hh => h.1 hh.symm
      simp [getF_cons, hne, ih h.2]

/-! ## Document Mapper: `BaseModel._toFirestore` -/

/-- Membership of a key in the declared relation properties
(`relationProperties.has(key)`). -/
def isRelName (meta : ModelMeta) (k : String) : Bool :=
  meta.relations.any (fun r => r.propertyName == k)

/-- The related model's collection name for a relation property
(`relationMeta.find(m => m.propertyName === key)!.relatedModel()
._getCollectionName()`), defaulting to the empty string when the property is
not a declared relation (the code only evaluates it when it is). -/
def relCollD (meta : ModelMeta) (k : String) : String :=
  ((meta.relations.find? (fun r => r.propertyName == k)).map
    (fun r => r.relatedColl)).getD ""

/-- Test for an internal `_`-prefixed property name (`key.startsWith("_")`),
phrased on the character list so it computes by kernel reduction. -/
def isInternalKey (k : String) : Bool :=
  match k.data with
  | c :: _ => c = '_'
  | [] => false

/-- Skip test of `_toFirestore` and of the `update` cleaning loop: the key
`id`, internal `_`-prefixed keys and function-valued properties are never
serialized. -/
def skipKey (k : String) (v : Option Value) : Bool :=
  k == "id" || isInternalKey k || v == some Value.vfunc

/-- Per-field emission of `_toFirestore(serializing)`: `none` means the field
is omitted from the produced `DocumentData`. Faithful port of the branch
structure of `base-model.ts` lines 417-490. -/
def emitField (s : Bool) (meta : ModelMeta) (k : String) (v : Value) : Option Value :=
  match v with
  | .vinst oid tag =>
      if skipKey k (some (.vinst oid tag)) then none
      else if isRelName meta k then
        if s then
          match oid with
          | some rid => some (.vdocRef (relCollD meta k) rid)
          | none => some .vnull
        else none
      else some (.vinst oid tag)
  | .vdocRef c i =>
      if skipKey k (some (.vdocRef c i)) then none else some (.vdocRef c i)
  | .vnull =>
      if skipKey k (some .vnull) then none
      else if isRelName meta k then (if s then some .vnull else none)
      else some .vnull
  | .vundef => none
  | .vdate ms =>
      if skipKey k (some (.vdate ms)) then none
      else if isRelName meta k then none else some (.vtimestamp ms)
  | .vtimestamp ms =>
      if skipKey k (some (.vtimestamp ms)) then none
      else if isRelName meta k then none else some (.vtimestamp ms)
  | .vgeo a b =>
      if skipKey k (some (.vgeo a b)) then none
      else if isRelName meta k then none else some (.vgeo a b)
  | .vfv f =>
      if skipKey k (some (.vfv f)) then none
      else if isRelName meta k then none else some (.vfv f)
  | .vstr s' =>
      if skipKey k (some (.vstr s')) then none
      else if isRelName meta k then none else some (.vstr s')
  | .vnum n =>
      if skipKey k (some (.vnum n)) then none
      else if isRelName meta k then none else some (.vnum n)
  | .vbool b =>
      if skipKey k (some (.vbool b)) then none
      else if isRelName meta k then none else some (.vbool b)
  | .vother t =>
      if skipKey k (some (.vother t)) then none
      else if isRelName meta k then none else some (.vother t)
  | .vfunc => none

/-- Warning emitted (if any) while serializing one field, mirroring the
`console.warn` calls of `_toFirestore`. -/
def warnOf (s : Bool) (meta : ModelMeta) (k : String) (v : Value) : Option Event :=
  match v with
  | .vinst none tag =>
      if skipKey k (some (.vinst none tag)) then none
      else if isRelName meta k then
        (if s then some (.warnRelNoId k) else none)
      else none
  | .vinst (some _) _ => none
  | .vdocRef _ _ => none
  | .vundef => none
  | .vfunc => none
  | .vnull =>
      if skipKey k (some .vnull) then none
      else if isRelName meta k then
        (if s then none else some (.warnRelUnexpected k))
      else none
  | .vdate ms =>
      if skipKey k (some (.vdate ms)) then none
      else if isRelName meta k then
        (if s then none else some (.warnRelUnexpected k))
      else none
  | .vtimestamp ms =>
      if skipKey k (some (.vtimestamp ms)) then none
      else if isRelName meta k then
        (if s then none else some (.warnRelUnexpected k))
      else none
  | .vgeo a b =>
      if skipKey k (some (.vgeo a b)) then none
      else if isRelName meta k then
        (if s then none else some (.warnRelUnexpected k))
      else none
  | .vfv f =>
      if skipKey k (some (.vfv f)) then none
      else if isRelName meta k then
        (if s then none else some (.warnRelUnexpected k))
      else none
  | .vstr s' =>
      if skipKey k (some (.vstr s')) then none
      else if isRelName meta k then
        (if s then none else some (.warnRelUnexpected k))
      else none
  | .vnum n =>
      if skipKey k (some (.vnum n)) then none
      else if isRelName meta k then
        (if s then none else some (.warnRelUnexpected k))
      else none
  | .vbool b =>
      if skipKey k (some (.vbool b)) then none
      else if isRelName meta k then
        (if s then none else some (.warnRelUnexpected k))
      else none
  | .vother t =>
      if skipKey k (some (.vother t)) then none
      else if isRelName meta k then
        (if s then none else some (.warnRelUnexpected k))
      else none

/-- `BaseModel._toFirestore(serializing)`: maps the instance's own data
properties to a storage-ready association list, together with the warnings
produced along the way. -/
def toFirestore (s : Bool) (meta : ModelMeta) (inst : Inst) :
    List (String × Value) × List Event :=
  (inst.fields.filterMap (fun p => (emitField s meta p.1 p.2).map (fun w => (p.1, w))),
   inst.fields.filterMap (fun p => warnOf s meta p.1 p.2))

/-- Keys of the produced document are among the instance's field keys. -/
theorem toFirestore_keys_sub (s : Bool) (meta : ModelMeta) (inst : Inst) :
    ∀ k, k ∈ (toFirestore s meta inst).1.map Prod.fst → k ∈ inst.fields.map Prod.fst := by
  intro k hk
  simp only [toFirestore, List.map_filterMap, List.mem_filterMap] at hk
  obtain ⟨p, hp, he⟩ := hk
  cases hemit : emitField s meta p.1 p.2 with
  | none => rw [hemit] at he; simp at he
  | some w =>
      rw [hemit] at he
      simp only [Option.map_some, Option.map] at he
      cases he
      exact List.mem_map_of_mem Prod.fst hp

/-- Lookup in the produced document, for instances with unique field keys:
the document binds `k` exactly to what `emitField` yields on the instance's
value at `k`. -/
theorem getF_toFirestore (s : Bool) (meta : ModelMeta) (inst : Inst)
    (hnd : (inst.fields.map Prod.fst).Nodup) (k : String) :
    getF (toFirestore s meta inst).1 k = (getF inst.fields k).bind (emitField s meta k) := by
  obtain ⟨i, fields, cache⟩ := inst
  simp only [toFirestore]
  simp only at hnd
  induction fields with
  | nil => simp [getF]
  | cons p rest ih =>
      obtain ⟨k₀, v₀⟩ := p
      simp only [List.map_cons, List.nodup_cons] at hnd
      have ihr := ih hnd.2
      have hstepN : emitField s meta k₀ v₀ = none →
          List.filterMap (fun p => Option.map (fun w => (p.1, w)) (emitField s meta p.1 p.2))
            ((k₀, v₀) :: rest) =
          List.filterMap (fun p => Option.map (fun w => (p.1, w)) (emitField s meta p.1 p.2))
            rest := by
        intro hh
        simp [List.filterMap_cons, hh]
      have hstepS : ∀ w, emitField s meta k₀ v₀ = some w →
          List.filterMap (fun p => Option.map (fun w => (p.1, w)) (emitField s meta p.1 p.2))
            ((k₀, v₀) :: rest) =
          (k₀, w) :: List.filterMap (fun p => Option.map (fun w => (p.1, w)) (emitField s meta p.1 p.2))
            rest := by
        intro w hh
        simp [List.filterMap_cons, hh]
      by_cases hk : k₀ = k
      · subst hk
        cases hemit : emitField s meta k₀ v₀ with
        | none =>
            rw [hstepN hemit]
            have hnone : getF rest k₀ = none := by
              apply getF_eq_none_of_not_mem_keys
              exact hnd.1
            rw [ihr, hnone, getF_cons, if_pos rfl, Option.none_bind, Option.some_bind, hemit]
        | some w =>
            rw [hstepS w hemit]
            rw [getF_cons, if_pos rfl, getF_cons, if_pos rfl, Option.some_bind, hemit]
      · cases hemit : emitField s meta k₀ v₀ with
        | none =>
            rw [hstepN hemit]
            rw [getF_cons, if_neg hk, ihr]
        | some w =>
            rw [hstepS w hemit]
            rw [getF_cons, if_neg hk, getF_cons, if_neg hk, ihr]

/-- Recognizer for the warning events of `_toFirestore`. -/
def isSerializeWarn : Event → Bool
  | .warnRelNoId _ => true
  | .warnRelUnexpected _ => true
  | _ => false

theorem warnOf_isWarn {s : Bool} {meta : ModelMeta} {k : String} {v : Value} {e : Event}
    (hw : warnOf s meta k v = some e) : isSerializeWarn e = true := by
  unfold warnOf at hw
  cases v <;> (try (rename_i o t; cases o)) <;>
    (try exact Option.noConfusion hw) <;>
    (repeat' (split at hw)) <;>
    first
      | exact Option.noConfusion hw
      | (cases hw; rfl)

/-- Every event produced by `_toFirestore` is one of its two warnings. -/
theorem toFirestore_events_are_warns (s : Bool) (meta : ModelMeta) (inst : Inst) :
    ∀ e ∈ (toFirestore s meta inst).2, isSerializeWarn e = true := by
  intro e he
  simp only [toFirestore, List.mem_filterMap] at he
  obtain ⟨p, _, hw⟩ := he
  exact warnOf_isWarn hw

/-! ## Document Mapper: `BaseModel._fromFirestore`

`_fromFirestore` splits the snapshot data into relation fields holding a
`DocumentReference` (assigned to the instance after construction) and
everything else (passed to the constructor, which `Object.assign`s it), and
takes the identity key from the snapshot location. The `afterLoad` hook is
fired asynchronously without affecting the returned instance; its failures
are only logged. We embed the case of a stored document without an own `id`
data field (the mapper itself never writes one). -/
def fromFirestore (meta : ModelMeta) (snapId : String) (doc : List (String × Value)) : Inst :=
  let isRelRef : String × Value → Bool := fun p =>
    isRelName meta p.1 && (match p.2 with | .vdocRef _ _ => true | _ => false)
  { id := some snapId
    fields := doc.filter (fun p => !(isRelRef p)) ++ doc.filter isRelRef
    cache := [] }

/-! ## CRUD Engine: `BaseModel.save` -/

/-- Nullish test (`value == null` in JS matches both `null` and `undefined`;
an absent own property also reads as `undefined`). -/
def isNullish : Option Value → Bool
  | none => true
  | some .vnull => true
  | some .vundef => true
  | _ => false

/-- One auto-fill pass (`if (this[prop] == null) this[prop] = dflt`),
applied for a list of property/default pairs in order. -/
def fillNullish (ps : List (String × Value)) (inst : Inst) : Inst :=
  ps.foldl
    (fun i p =>
      if isNullish (getF i.fields p.1) then
        { i with fields := setEntry i.fields p.1 p.2 }
      else i)
    inst

/-- Auto-fill of `@TimestampField({autoFill: true})` properties at the start
of `save`: unset values become `Timestamp.now()`. -/
def applyTsDefaults (meta : ModelMeta) (now : Int) (inst : Inst) : Inst :=
  fillNullish (meta.tsAutoFill.map (fun p => (p, Value.vtimestamp now))) inst

/-- Auto-fill of `@BooleanField({defaultValue})` properties at the start of
`save`. -/
def applyBoolDefaults (meta : ModelMeta) (inst : Inst) : Inst :=
  fillNullish (meta.boolDefaults.map (fun p => (p.1, Value.vbool p.2))) inst

/-- Both auto-fill passes of `save`, in source order. -/
def applyDefaults (meta : ModelMeta) (now : Int) (inst : Inst) : Inst :=
  applyBoolDefaults meta (applyTsDefaults meta now inst)

/-- Environment of one `save` call: the decorator metadata, the schema-check
outcome (`none` = the Zod parse succeeds, `some issues` = it rejects with the
given field-level issues), the ambient `transactionContext` value, the
current time, the fresh document key the collection would mint
(`collection.doc().id`), and the outcome the store gives a direct
`docRef.set` (`.ok writeTime` or `.error code`). -/
structure SaveEnv where
  meta : ModelMeta
  validateFn : List (String × Value) → Option (List (String × String))
  ctx : Option CtxKind
  now : Int
  freshId : String
  writeRes : Except Nat Nat

/-- Errors a `save` call can surface: a `ValidationError` carrying the Zod
issue list, or a store failure re-thrown after logging. -/
inductive SaveErr where
  | validation (issues : List (String × String))
  | store (code : Nat)
deriving DecidableEq

/-- Shallow embedding of `BaseModel.save` (base-model.ts lines 603-657):
apply declared defaults, run `beforeSave`, map with `_toFirestore(true)`,
validate, resolve the document reference (minting an identity key when
absent), then either enqueue a `set` on the ambient transaction/batch and
return no payload (skipping `afterSave`), or perform the direct write,
run `afterSave` with the acknowledgement and return it; a direct-write
failure is logged and re-thrown. Returns the result, the final state of
`this`, and the event trace. -/
def save (env : SaveEnv) (inst : Inst) :
    Except SaveErr (Option Nat) × Inst × List Event :=
  let i1 := applyDefaults env.meta env.now inst
  let mapped := toFirestore true env.meta i1
  let evs0 := Event.hookBeforeSave :: mapped.2
  match env.validateFn mapped.1 with
  | some issues => (.error (.validation issues), i1, evs0)
  | none =>
    let docId := i1.id.getD env.freshId
    let i2 := { i1 with id := some docId }
    match env.ctx with
    | some ck =>
        (.ok none, i2, evs0 ++ [.enqueueSet ck env.meta.collName docId mapped.1])
    | none =>
        match env.writeRes with
        | .ok wr =>
            (.ok (some wr), i2,
              evs0 ++ [.directSet env.meta.collName docId mapped.1, .hookAfterSave wr])
        | .error e =>
            (.error (.store e), i2,
              evs0 ++ [.directSet env.meta.collName docId mapped.1, .logError])

/-! ## CRUD Engine: `BaseModel.update` -/

/-- Environment of one `update` call: metadata, ambient context, and the
outcome of a direct `docRef.update`. -/
structure UpdateEnv where
  meta : ModelMeta
  ctx : Option CtxKind
  updateRes : Except Nat Nat

/-- Errors an `update` call can surface: the fatal missing-identity-key
precondition, or a store failure re-thrown after logging. -/
inductive UpdateErr where
  | noId
  | store (code : Nat)
deriving DecidableEq

/-- Results of a successful `update` call: `pending` is the `undefined`
returned inside a transaction/batch; `acked wr` is the store acknowledgement
of a direct write; `fakeAck` is the empty object the code returns (cast to
`WriteResult`) for an empty cleaned patch outside a context. -/
inductive UpdateRes where
  | pending
  | acked (wr : Nat)
  | fakeAck
deriving DecidableEq

/-- The patch-cleaning loop of `update` (base-model.ts lines 684-707): drops
the `id` key, `_`-internal keys and keys whose value on the instance is a
function; passes `FieldValue` sentinels through; keeps relation fields only
as explicit `null` or `DocumentReference`; keeps `null` for plain fields;
normalizes `Date` to `Timestamp`; drops `undefined` and everything else. -/
def cleanEntry (meta : ModelMeta) (instFields : List (String × Value))
    (k : String) (v : Value) : Option Value :=
  match v with
  | .vfv s => if skipKey k (getF instFields k) then none else some (.vfv s)
  | .vnull => if skipKey k (getF instFields k) then none else some .vnull
  | .vdocRef c i =>
      if skipKey k (getF instFields k) then none else some (.vdocRef c i)
  | .vundef => none
  | .vdate ms =>
      if skipKey k (getF instFields k) then none
      else if isRelName meta k then none else some (.vtimestamp ms)
  | .vstr s =>
      if skipKey k (getF instFields k) then none
      else if isRelName meta k then none else some (.vstr s)
  | .vnum n =>
      if skipKey k (getF instFields k) then none
      else if isRelName meta k then none else some (.vnum n)
  | .vbool b =>
      if skipKey k (getF instFields k) then none
      else if isRelName meta k then none else some (.vbool b)
  | .vtimestamp ms =>
      if skipKey k (getF instFields k) then none
      else if isRelName meta k then none else some (.vtimestamp ms)
  | .vgeo a b =>
      if skipKey k (getF instFields k) then none
      else if isRelName meta k then none else some (.vgeo a b)
  | .vinst oid tag =>
      if skipKey k (getF instFields k) then none
      else if isRelName meta k then none else some (.vinst oid tag)
  | .vother tag =>
      if skipKey k (getF instFields k) then none
      else if isRelName meta k then none else some (.vother tag)
  | .vfunc =>
      if skipKey k (getF instFields k) then none
      else if isRelName meta k then none else some .vfunc

/-- The cleaned patch produced by the loop. -/
def cleanPatch (meta : ModelMeta) (inst : Inst) (patch : List (String × Value)) :
    List (String × Value) :=
  patch.filterMap (fun p => (cleanEntry meta inst.fields p.1 p.2).map (fun w => (p.1, w)))

/-- `BaseModel._updateLocalState`: reflects the cleaned patch on the local
instance; `FieldValue` sentinels are not reflected except `FieldValue.delete()`
which clears the field; a written relation field is evicted from the
populated-relations cache. -/
def updateLocalState (meta : ModelMeta) (inst : Inst)
    (clean : List (String × Value)) : Inst :=
  clean.foldl
    (fun i p =>
      match p.2 with
      | .vfv .deleteField =>
          { i with fields := setEntry i.fields p.1 .vundef
                   cache := if isRelName meta p.1 then removeEntry i.cache p.1 else i.cache }
      | .vfv _ => i
      | v =>
          { i with fields := setEntry i.fields p.1 v
                   cache := if isRelName meta p.1 then removeEntry i.cache p.1 else i.cache })
    inst

/-- Shallow embedding of `BaseModel.update` (base-model.ts lines 669-749):
requires an identity key (else throws before touching the store); cleans the
patch; an empty cleaned patch warns and returns without any hook or store
call; otherwise runs `beforeUpdate`, then either enqueues an update on the
ambient context, applies local state and skips `afterUpdate`, or performs the
direct write, applies local state, and runs `afterUpdate`; a direct-write
failure is logged and re-thrown. -/
def update (env : UpdateEnv) (inst : Inst) (patch : List (String × Value)) :
    Except UpdateErr UpdateRes × Inst × List Event :=
  match inst.id with
  | none => (.error .noId, inst, [])
  | some i =>
    let clean := cleanPatch env.meta inst patch
    if clean.isEmpty then
      (.ok (match env.ctx with | some _ => .pending | none => .fakeAck), inst,
        [.warnEmptyUpdate])
    else
      match env.ctx with
      | some ck =>
          (.ok .pending, updateLocalState env.meta inst clean,
            [.hookBeforeUpdate, .enqueueUpdate ck env.meta.collName i clean])
      | none =>
          match env.updateRes with
          | .ok wr =>
              (.ok (.acked wr), updateLocalState env.meta inst clean,
                [.hookBeforeUpdate, .directUpdate env.meta.collName i clean,
                 .hookAfterUpdate wr])
          | .error e =>
              (.error (.store e), inst,
                [.hookBeforeUpdate, .directUpdate env.meta.collName i clean, .logError])

/-! ## Relation Resolver: `BaseModel.populate` -/

/-- Outcome of `RelatedModel.findById(ref.id)` as observed by `populate`:
a fetched instance (its identity key and an opaque payload tag), a `null`
return (snapshot does not exist, or the not-found error code mapped to
`null`), or a thrown error. -/
inductive FetchResult where
  | found (oid : Option String) (tag : Nat)
  | notFound
  | err
deriving DecidableEq

/-- Environment of a `populate` call: the model's metadata and an oracle for
the related-model fetches, keyed by the related model's collection name and
the requested document key. -/
structure PopEnv where
  meta : ModelMeta
  fetch : String → String → FetchResult

/-- Argument of `populate`: `true` (all non-lazy declared relations) or an
explicit field list (a single name is the singleton list). -/
inductive PopArg where
  | all
  | names (ns : List String)

/-- The declared non-lazy relation property names. -/
def eagerNames (meta : ModelMeta) : List String :=
  (meta.relations.filter (fun r => !r.lazy)).map (fun r => r.propertyName)

/-- One iteration of the `populate` field loop (base-model.ts lines 513-560):
warn on a non-relation name; short-circuit to the cache when the field is
cached (even as null); fetch when the field holds a `DocumentReference`,
assigning and caching the result, or `null` on a missing document, or — after
logging — `null` on a thrown fetch error; seed the cache for an
already-resolved instance; cache `null` for a null/undefined field; ignore
anything else. -/
def popField (env : PopEnv) (st : Inst × List Event) (f : String) : Inst × List Event :=
  let (inst, evs) := st
  match env.meta.relations.find? (fun r => r.propertyName == f) with
  | none => (inst, evs ++ [.warnNotRelation f])
  | some rm =>
    match getF inst.cache f with
    | some cv => ({ inst with fields := setEntry inst.fields f cv }, evs)
    | none =>
      match getF inst.fields f with
      | some (.vdocRef _ d) =>
          match env.fetch rm.relatedColl d with
          | .found oid tag =>
              ({ inst with fields := setEntry inst.fields f (.vinst oid tag)
                           cache := setEntry inst.cache f (.vinst oid tag) },
               evs ++ [.relFetch f rm.relatedColl d])
          | .notFound =>
              ({ inst with fields := setEntry inst.fields f .vnull
                           cache := setEntry inst.cache f .vnull },
               evs ++ [.relFetch f rm.relatedColl d])
          | .err =>
              ({ inst with fields := setEntry inst.fields f .vnull
                           cache := setEntry inst.cache f .vnull },
               evs ++ [.relFetch f rm.relatedColl d, .logError])
      | some (.vinst oid tag) =>
          ({ inst with cache := setEntry inst.cache f (.vinst oid tag) }, evs)
      | some .vnull => ({ inst with cache := setEntry inst.cache f .vnull }, evs)
      | some .vundef => ({ inst with cache := setEntry inst.cache f .vnull }, evs)
      | none => ({ inst with cache := setEntry inst.cache f .vnull }, evs)
      | some _ => (inst, evs)

/-- The `populate` field loop over a list of field names. The JS code issues
the per-field fetches concurrently and joins them with `Promise.all`; since
each loop iteration touches only its own field and cache entry, the joined
state equals this sequential threading. `populate` never throws: every fetch
failure is contained in its own field (`try/catch` inside the loop body). -/
def populateNames (env : PopEnv) (inst : Inst) (ns : List String) : Inst × List Event :=
  ns.foldl (popField env) (inst, [])

/-- `BaseModel.populate`: dispatch on the argument form. -/
def populate (env : PopEnv) (inst : Inst) (arg : PopArg) : Inst × List Event :=
  match arg with
  | .all => populateNames env inst (eagerNames env.meta)
  | .names ns => populateNames env inst ns

/-! ## Ambient context helper: `runInBatch` -/

/-- Events of the `runInBatch` helper. -/
inductive BEvent where
  | cbSettled
  | commitCalled
deriving DecidableEq

/-- Result structure of `runInBatch` (`BatchResult<T>`). -/
structure BatchResult (T : Type) where
  commitResults : List Nat
  callbackResult : T
deriving DecidableEq

/-- Shallow embedding of `runInBatch` (transaction-manager.ts lines 60-85).
The user callback runs inside `transactionContext.run(batch, ...)`; we model
it by its outcome: either it throws (`.error e`), or it resolves with its
return value and the list of operations it enqueued on the batch. `commit`
models `batch.commit()`, fallible. The batch is committed only after the
callback resolves; a callback throw propagates (after logging) with no
commit; a commit failure propagates likewise. -/
def runInBatch {T E : Type} (cb : Except E (T × List (String × String)))
    (commit : List (String × String) → Except E (List Nat)) :
    Except E (BatchResult T) × List BEvent :=
  match cb with
  | .error e => (.error e, [])
  | .ok (t, ops) =>
      match commit ops with
      | .error e => (.error e, [.cbSettled, .commitCalled])
      | .ok rs => (.ok ⟨rs, t⟩, [.cbSettled, .commitCalled])

/-! ## CRUD Engine: `findById` pipeline and `reload` -/

/-- Environment of a `reload` call: metadata, the store content at the
instance's own document path (`none` = snapshot does not exist), and the
fetch oracle for the eager-relation `populate` performed by `findById`. -/
structure ReloadEnv where
  meta : ModelMeta
  storeDoc : Option (List (String × Value))
  fetch : String → String → FetchResult

/-- Errors a `reload` call can surface. -/
inductive ReloadErr where
  | noId
  | notFound (modelName docId : String)
deriving DecidableEq

/-- The `findById` pipeline as invoked by `reload()` without populate
options (base-model.ts lines 208-255): read the snapshot, map it through
`_fromFirestore`, then populate the declared non-lazy relations (the model
carries no `@SubCollection` metadata, so the sub-collection loop is a
no-op). -/
def findByIdModel (env : ReloadEnv) (docId : String) : Option Inst × List Event :=
  match env.storeDoc with
  | none => (none, [.getDoc env.meta.collName docId])
  | some doc =>
      let base := fromFirestore env.meta docId doc
      let en := eagerNames env.meta
      if en.isEmpty then (some base, [.getDoc env.meta.collName docId])
      else
        let r := populateNames ⟨env.meta, env.fetch⟩ base en
        (some r.1, .getDoc env.meta.collName docId :: r.2)

/-- One step of the re-seeding pass at the end of `reload` (base-model.ts
lines 830-836): when the (already copied) field value of a declared relation
is a resolved instance or explicit null, write it into the relation cache. -/
def reseedStep (fields : List (String × Value)) (c : List (String × Value))
    (rm : RelationMeta) : List (String × Value) :=
  match getF fields rm.propertyName with
  | some (.vinst oid tag) => setEntry c rm.propertyName (.vinst oid tag)
  | some .vnull => setEntry c rm.propertyName .vnull
  | some .vundef => c
  | some (.vstr _) => c
  | some (.vnum _) => c
  | some (.vbool _) => c
  | some (.vdate _) => c
  | some (.vtimestamp _) => c
  | some (.vgeo _ _) => c
  | some (.vfv _) => c
  | some (.vdocRef _ _) => c
  | some (.vother _) => c
  | some .vfunc => c
  | none => c

/-- The re-seeding pass over all declared relations. -/
def reseedCache (meta : ModelMeta) (base fields : List (String × Value)) :
    List (String × Value) :=
  meta.relations.foldl (reseedStep fields) base

/-- The copy loop of `reload` skips the key `id`. -/
def dropIdKey (l : List (String × Value)) : List (String × Value) :=
  l.filter (fun p => p.1 ≠ "id")

/-- Shallow embedding of `BaseModel.reload` (base-model.ts lines 802-839):
requires an identity key; re-fetches through `findById`; throws
`NotFoundError(constructor.name, id)` when the document is gone; otherwise
copies every own enumerable property of the fresh instance except `id` onto
`this` — that loop copies the fresh instance's data fields one by one onto
the existing ones, and also copies the fresh `_populatedRelations` object
wholesale (it is an own enumerable property) — and finally re-seeds the
relation cache from the copied field values. -/
def reload (env : ReloadEnv) (inst : Inst) : Except ReloadErr Inst × List Event :=
  match inst.id with
  | none => (.error .noId, [])
  | some i =>
    match findByIdModel env i with
    | (none, evs) => (.error (.notFound env.meta.typeName i), evs)
    | (some fresh, evs) =>
        let fields' := overwriteFields inst.fields (dropIdKey fresh.fields)
        let cache' := reseedCache env.meta fresh.cache fields'
        (.ok { id := some i, fields := fields', cache := cache' }, evs)

/-! ## Generic helper lemmas -/

theorem getF_some_mem {l : List (String × Value)} {k : String} {v : Value}
    (h : getF l k = some v) : (k, v) ∈ l := by
  induction l with
  | nil => simp [getF] at h
  | cons p rest ih =>
      obtain ⟨k₀, v₀⟩ := p
      rw [getF_cons] at h
      by_cases hk : k₀ = k
      · rw [if_pos hk] at h
        cases h
        subst hk
        exact List.mem_cons_self _ _
      · rw [if_neg hk] at h
        exact List.mem_cons_of_mem _ (ih h)

theorem getF_append (a b : List (String × Value)) (k : String) :
    getF (a ++ b) k = (getF a k).orElse (fun _ => getF b k) := by
  induction a with
  | nil => simp [getF]
  | cons p rest ih =>
      obtain ⟨k₀, v₀⟩ := p
      by_cases hk : k₀ = k
      · simp [getF_cons, hk]
      · simp only [List.cons_append, getF_cons, if_neg hk]
        exact ih

/-- Membership characterization for the `filterMap` shape shared by
`toFirestore` and `cleanPatch`: entries keep the key of the entry they come
from. -/
theorem mem_keyedFilterMap (f : String → Value → Option Value)
    (l : List (String × Value)) (k : String) (w : Value) :
    (k, w) ∈ l.filterMap (fun p => (f p.1 p.2).map (fun u => (p.1, u))) ↔
      ∃ v, (k, v) ∈ l ∧ f k v = some w := by
  rw [List.mem_filterMap]
  constructor
  · rintro ⟨⟨k₀, v₀⟩, hmem, hf⟩
    cases hf0 : f k₀ v₀ with
    | none => rw [hf0] at hf; simp at hf
    | some u =>
        rw [hf0] at hf
        simp only [Option.map_some] at hf
        obtain ⟨hk, hw⟩ := Prod.mk.injEq .. ▸ (Option.some.injEq .. ▸ hf)
        subst hk
        exact ⟨v₀, hmem, by rw [hf0, hw]⟩
  · rintro ⟨v, hmem, hf⟩
    exact ⟨(k, v), hmem, by rw [hf]; rfl⟩

/-- Keys of the `filterMap` image form a sublist of the original keys. -/
theorem keyedFilterMap_keys_sublist (f : String → Value → Option Value)
    (l : List (String × Value)) :
    ((l.filterMap (fun p => (f p.1 p.2).map (fun u => (p.1, u)))).map Prod.fst).Sublist
      (l.map Prod.fst) := by
  induction l with
  | nil => simp
  | cons p rest ih =>
      obtain ⟨k₀, v₀⟩ := p
      cases hf0 : f k₀ v₀ with
      | none =>
          rw [List.filterMap_cons]
          simp only [hf0, Option.map_none, List.map_cons]
          exact ih.cons _
      | some u =>
          rw [List.filterMap_cons]
          simp only [hf0, Option.map_some, List.map_cons]
          exact ih.cons₂ _

theorem not_serialize_warn_mem (s : Bool) (meta : ModelMeta) (inst : Inst)
    {e : Event} (he : isSerializeWarn e = false) : e ∉ (toFirestore s meta inst).2 := by
  intro hm
  have := toFirestore_events_are_warns s meta inst e hm
  rw [he] at this
  exact Bool.false_ne_true this

/-! ### `fillNullish` lemmas -/

theorem fillNullish_id (ps : List (String × Value)) (inst : Inst) :
    (fillNullish ps inst).id = inst.id := by
  induction ps generalizing inst with
  | nil => rfl
  | cons p rest ih =>
      simp only [fillNullish, List.foldl_cons]
      by_cases h : isNullish (getF inst.fields p.1)
      · rw [if_pos h]; exact ih _
      · rw [if_neg h]; exact ih _

theorem fillNullish_cache (ps : List (String × Value)) (inst : Inst) :
    (fillNullish ps inst).cache = inst.cache := by
  induction ps generalizing inst with
  | nil => rfl
  | cons p rest ih =>
      simp only [fillNullish, List.foldl_cons]
      by_cases h : isNullish (getF inst.fields p.1)
      · rw [if_pos h]; exact ih _
      · rw [if_neg h]; exact ih _

theorem getF_fillNullish_preserve (ps : List (String × Value)) (inst : Inst)
    (k : String) (w : Value) (h : getF inst.fields k = some w)
    (hw : isNullish (some w) = false) :
    getF (fillNullish ps inst).fields k = some w := by
  induction ps generalizing inst with
  | nil => exact h
  | cons p rest ih =>
      simp only [fillNullish, List.foldl_cons]
      by_cases hk : p.1 = k
      · subst hk
        rw [h, hw]
        simp only [Bool.false_eq_true, if_false]
        exact ih inst h
      · by_cases hn : isNullish (getF inst.fields p.1)
        · rw [if_pos hn]
          apply ih
          rw [getF_setEntry_ne _ _ _ _ (fun hh => hk hh.symm)]
          exact h
        · rw [if_neg hn]
          exact ih inst h

theorem getF_fillNullish_fills (ps : List (String × Value)) (inst : Inst)
    (k : String) (w : Value) (hp : (k, w) ∈ ps)
    (hcons : ∀ w', (k, w') ∈ ps → w' = w)
    (hwn : isNullish (some w) = false)
    (h : isNullish (getF inst.fields k) = true) :
    getF (fillNullish ps inst).fields k = some w := by
  induction ps generalizing inst with
  | nil => simp at hp
  | cons p rest ih =>
      simp only [fillNullish, List.foldl_cons]
      by_cases hk : p.1 = k
      · rw [hk, h]
        simp only [if_true]
        have hpw : p.2 = w := by
          apply hcons
          rw [← hk]
          exact List.mem_cons_self _ _
        have hset : getF (setEntry inst.fields k p.2) k = some w := by
          rw [getF_setEntry_self, hpw]
        exact getF_fillNullish_preserve rest _ k w (by
          simpa [hk] using hset) hwn
      · have hrest : (k, w) ∈ rest := by
          rcases List.mem_cons.mp hp with h0 | h0
          · cases h0; exact absurd rfl hk
          · exact h0
        by_cases hn : isNullish (getF inst.fields p.1)
        · rw [if_pos hn]
          exact ih _ hrest (fun w' hw' => hcons w' (List.mem_cons_of_mem _ hw'))
            (by rw [getF_setEntry_ne _ _ _ _ (fun hh => hk hh.symm)]; exact h)
        · rw [if_neg hn]
          exact ih inst hrest (fun w' hw' => hcons w' (List.mem_cons_of_mem _ hw')) h

theorem applyDefaults_id (meta : ModelMeta) (now : Int) (inst : Inst) :
    (applyDefaults meta now inst).id = inst.id := by
  unfold applyDefaults applyBoolDefaults applyTsDefaults
  rw [fillNullish_id, fillNullish_id]

/-! ## Claim theorems -/

/-- C7: for every callback passed to `runInBatch`, the batch is committed
only after the callback resolves without throwing, and the helper returns
both the commit results and the callback's return value; if the callback
throws, the batch is never committed (no commit event at all) and the error
propagates to the caller. -/
theorem runInBatch_commit_discipline {T E : Type}
    (cb : Except E (T × List (String × String)))
    (commit : List (String × String) → Except E (List Nat)) :
    (∀ e, cb = .error e → runInBatch cb commit = (.error e, [])) ∧
    (∀ t ops rs, cb = .ok (t, ops) → commit ops = .ok rs →
        runInBatch cb commit =
          (.ok ⟨rs, t⟩, [.cbSettled, .commitCalled])) := by
  constructor
  · intro e he
    subst he
    rfl
  · intro t ops rs hcb hcommit
    subst hcb
    simp [runInBatch, hcommit]

/-- Witness for C7 at concrete inputs: a throwing callback propagates its
error with no commit; a resolving callback yields both results after the
commit. -/
theorem runInBatch_commit_discipline_witness :
    runInBatch (Except.error 3 : Except Nat (Nat × List (String × String)))
        (fun _ => .ok [7]) = (.error 3, []) ∧
    runInBatch (Except.ok (5, [("users/u1", "set")]) :
          Except Nat (Nat × List (String × String)))
        (fun _ => .ok [7]) =
      (.ok ⟨[7], 5⟩, [.cbSettled, .commitCalled]) :=
  ⟨(runInBatch_commit_discipline _ _).1 3 rfl,
   (runInBatch_commit_discipline _ _).2 5 [("users/u1", "set")] [7] rfl rfl⟩

/-- C1: for every `save` whose mapped document passes validation: with an
active ambient transaction or batch, the mapped document is enqueued as a
set-operation on that handle, `afterSave` is not invoked, no direct write
happens, and the call returns no payload (`undefined`); with an empty
ambient context and a successful direct write, the document is written
directly, `afterSave` is invoked with the write acknowledgement, and that
acknowledgement is returned. -/
theorem save_ambient_dispatch (env : SaveEnv) (inst : Inst)
    (hv : env.validateFn
        (toFirestore true env.meta (applyDefaults env.meta env.now inst)).1 = none) :
    (∀ ck, env.ctx = some ck →
        (save env inst).1 = .ok none ∧
        Event.enqueueSet ck env.meta.collName
            ((applyDefaults env.meta env.now inst).id.getD env.freshId)
            (toFirestore true env.meta (applyDefaults env.meta env.now inst)).1 ∈
          (save env inst).2.2 ∧
        (∀ wr, Event.hookAfterSave wr ∉ (save env inst).2.2) ∧
        (∀ c d data, Event.directSet c d data ∉ (save env inst).2.2)) ∧
    (env.ctx = none → ∀ wr, env.writeRes = .ok wr →
        (save env inst).1 = .ok (some wr) ∧
        Event.directSet env.meta.collName
            ((applyDefaults env.meta env.now inst).id.getD env.freshId)
            (toFirestore true env.meta (applyDefaults env.meta env.now inst)).1 ∈
          (save env inst).2.2 ∧
        Event.hookAfterSave wr ∈ (save env inst).2.2) := by
  constructor
  · intro ck hck
    have hs : save env inst =
        (.ok none,
         { applyDefaults env.meta env.now inst with
             id := some ((applyDefaults env.meta env.now inst).id.getD env.freshId) },
         (Event.hookBeforeSave ::
            (toFirestore true env.meta (applyDefaults env.meta env.now inst)).2) ++
           [.enqueueSet ck env.meta.collName
              ((applyDefaults env.meta env.now inst).id.getD env.freshId)
              (toFirestore true env.meta (applyDefaults env.meta env.now inst)).1]) := by
      simp only [save, hv, hck]
    rw [hs]
    refine ⟨rfl, ?_, ?_, ?_⟩
    · simp
    · intro wr hmem
      simp only [List.cons_append, List.mem_cons, List.mem_append,
        List.mem_singleton] at hmem
      rcases hmem with h | h | h
      · simp at h
      · exact absurd h (not_serialize_warn_mem true env.meta _ (by rfl))
      · simp at h
    · intro c d data hmem
      simp only [List.cons_append, List.mem_cons, List.mem_append,
        List.mem_singleton] at hmem
      rcases hmem with h | h | h
      · simp at h
      · exact absurd h (not_serialize_warn_mem true env.meta _ (by rfl))
      · simp at h
  · intro hctx wr hwr
    have hs : save env inst =
        (.ok (some wr),
         { applyDefaults env.meta env.now inst with
             id := some ((applyDefaults env.meta env.now inst).id.getD env.freshId) },
         (Event.hookBeforeSave ::
            (toFirestore true env.meta (applyDefaults env.meta env.now inst)).2) ++
           [.directSet env.meta.collName
              ((applyDefaults env.meta env.now inst).id.getD env.freshId)
              (toFirestore true env.meta (applyDefaults env.meta env.now inst)).1,
            .hookAfterSave wr]) := by
      simp only [save, hv, hctx, hwr]
    rw [hs]
    refine ⟨rfl, ?_, ?_⟩
    · simp
    · simp

/-- Concrete model metadata for witnesses: a `users` collection with an
auto-fill timestamp and a boolean default, no relations. -/
def metaS : ModelMeta := ⟨"User", "users", [], ["createdAt"], [("isActive", true)]⟩

/-- Concrete instance without an identity key. -/
def usrInst : Inst := ⟨none, [("name", .vstr "A")], []⟩

/-- Save environment with an active transaction context. -/
def envTx : SaveEnv := ⟨metaS, fun _ => none, some .transaction, 100, "gen1", .ok 42⟩

/-- Save environment with no ambient context and a successful write. -/
def envDirect : SaveEnv := ⟨metaS, fun _ => none, none, 100, "gen1", .ok 42⟩

/-- Witness for C1 at concrete inputs: inside a transaction `save` returns no
payload; outside, it returns the acknowledgement and runs `afterSave` with
it. -/
theorem save_ambient_dispatch_witness :
    (save envTx usrInst).1 = .ok none ∧
    (save envDirect usrInst).1 = .ok (some 42) ∧
    Event.hookAfterSave 42 ∈ (save envDirect usrInst).2.2 :=
  ⟨((save_ambient_dispatch envTx usrInst rfl).1 .transaction rfl).1,
   ((save_ambient_dispatch envDirect usrInst rfl).2 rfl 42 rfl).1,
   ((save_ambient_dispatch envDirect usrInst rfl).2 rfl 42 rfl).2.2⟩

/-- C3: for every `save` whose mapped document fails schema validation, a
validation error carrying the per-field issue list is raised, no store write
and no enqueue has occurred, and the instance's identity key is left exactly
as it was (in particular, still unset if it was unset). -/
theorem save_validation_failure (env : SaveEnv) (inst : Inst)
    (issues : List (String × String))
    (hv : env.validateFn
        (toFirestore true env.meta (applyDefaults env.meta env.now inst)).1 = some issues) :
    (save env inst).1 = .error (.validation issues) ∧
    (∀ ck c d data, Event.enqueueSet ck c d data ∉ (save env inst).2.2) ∧
    (∀ c d data, Event.directSet c d data ∉ (save env inst).2.2) ∧
    ((save env inst).2.1).id = inst.id := by
  have hs : save env inst =
      (.error (.validation issues), applyDefaults env.meta env.now inst,
       Event.hookBeforeSave ::
         (toFirestore true env.meta (applyDefaults env.meta env.now inst)).2) := by
    simp only [save, hv]
  rw [hs]
  refine ⟨rfl, ?_, ?_, ?_⟩
  · intro ck c d data hmem
    rcases List.mem_cons.mp hmem with h | h
    · simp at h
    · exact absurd h (not_serialize_warn_mem true env.meta _ (by rfl))
  · intro c d data hmem
    rcases List.mem_cons.mp hmem with h | h
    · simp at h
    · exact absurd h (not_serialize_warn_mem true env.meta _ (by rfl))
  · exact applyDefaults_id env.meta env.now inst

/-- Save environment whose schema check rejects with one issue. -/
def envBad : SaveEnv :=
  ⟨metaS, fun _ => some [("email", "Invalid email")], none, 100, "gen1", .ok 42⟩

/-- Witness for C3 at concrete inputs: the validation error carries the
issues, and the identity key of an unsaved instance stays unset. -/
theorem save_validation_failure_witness :
    (save envBad usrInst).1 = .error (.validation [("email", "Invalid email")]) ∧
    usrInst.id = none ∧
    ((save envBad usrInst).2.1).id = none :=
  ⟨(save_validation_failure envBad usrInst _ rfl).1, rfl,
   by rw [(save_validation_failure envBad usrInst _ rfl).2.2.2]; rfl⟩

/-- C10: for every `save` of an instance without an identity key, outside any
ambient context, whose validation passes but whose direct write fails: the
store error propagates, yet the freshly minted identity key and the
auto-filled default fields remain set on the instance (no rollback to the
pre-call state). -/
theorem save_direct_failure_keeps_assignments (env : SaveEnv) (inst : Inst) (e : Nat)
    (hctx : env.ctx = none) (hid : inst.id = none)
    (hv : env.validateFn
        (toFirestore true env.meta (applyDefaults env.meta env.now inst)).1 = none)
    (hw : env.writeRes = .error e) :
    (save env inst).1 = .error (.store e) ∧
    ((save env inst).2.1).id = some env.freshId ∧
    ((save env inst).2.1).fields = (applyDefaults env.meta env.now inst).fields ∧
    (∀ p ∈ env.meta.tsAutoFill, isNullish (getF inst.fields p) = true →
        getF ((save env inst).2.1).fields p = some (.vtimestamp env.now)) := by
  have hs : save env inst =
      (.error (.store e),
       { applyDefaults env.meta env.now inst with
           id := some ((applyDefaults env.meta env.now inst).id.getD env.freshId) },
       (Event.hookBeforeSave ::
          (toFirestore true env.meta (applyDefaults env.meta env.now inst)).2) ++
         [.directSet env.meta.collName
            ((applyDefaults env.meta env.now inst).id.getD env.freshId)
            (toFirestore true env.meta (applyDefaults env.meta env.now inst)).1,
          .logError]) := by
    simp only [save, hv, hctx, hw]
  have hid1 : (applyDefaults env.meta env.now inst).id = none := by
    rw [applyDefaults_id]
    exact hid
  rw [hs]
  refine ⟨rfl, by simp [hid1], rfl, ?_⟩
  intro p hp hnull
  show getF (applyDefaults env.meta env.now inst).fields p = some (.vtimestamp env.now)
  unfold applyDefaults applyBoolDefaults applyTsDefaults
  apply getF_fillNullish_preserve
  · apply getF_fillNullish_fills
    · exact List.mem_map_of_mem _ hp
    · intro w' hw'
      obtain ⟨q, hq, hqe⟩ := List.mem_map.mp hw'
      injection hqe with h1 h2
      exact h2.symm
    · rfl
    · exact hnull
  · rfl

/-- Save environment with no ambient context and a failing write. -/
def envFail : SaveEnv := ⟨metaS, fun _ => none, none, 100, "gen1", .error 13⟩

/-- Witness for C10 at concrete inputs: the write failure propagates while
the minted key and the auto-filled timestamp survive on the instance. -/
theorem save_direct_failure_keeps_assignments_witness :
    (save envFail usrInst).1 = .error (.store 13) ∧
    ((save envFail usrInst).2.1).id = some "gen1" ∧
    getF ((save envFail usrInst).2.1).fields "createdAt" = some (.vtimestamp 100) :=
  ⟨(save_direct_failure_keeps_assignments envFail usrInst 13 rfl rfl rfl rfl).1,
   (save_direct_failure_keeps_assignments envFail usrInst 13 rfl rfl rfl rfl).2.1,
   (save_direct_failure_keeps_assignments envFail usrInst 13 rfl rfl rfl rfl).2.2.2
     "createdAt" (by decide) (by decide)⟩

/-- Per-entry consequence of the `update` cleaning loop: a surviving entry
never names `id`, an internal property or a function-valued property, never
carries a raw `Date`, and on a relation property is only an explicit null, a
reference, or a `FieldValue` sentinel. -/
theorem cleanEntry_prop {meta : ModelMeta} {fs : List (String × Value)}
    {k : String} {v w : Value} (h : cleanEntry meta fs k v = some w) :
    k ≠ "id" ∧ isInternalKey k = false ∧ getF fs k ≠ some .vfunc ∧
    (∀ ms, w ≠ .vdate ms) ∧
    (isRelName meta k = true →
        w = .vnull ∨ (∃ c d, w = .vdocRef c d) ∨ (∃ s, w = .vfv s)) := by
  have hskp : skipKey k (getF fs k) = false := by
    by_cases hsk : skipKey k (getF fs k) = true
    · cases v <;> simp [cleanEntry, hsk] at h
    · simpa using hsk
  have h3 : k ≠ "id" ∧ isInternalKey k = false ∧ getF fs k ≠ some .vfunc := by
    unfold skipKey at hskp
    simp only [Bool.or_eq_false_iff, beq_eq_false_iff_ne] at hskp
    exact ⟨hskp.1.1, hskp.1.2, hskp.2⟩
  refine ⟨h3.1, h3.2.1, h3.2.2, ?_⟩
  by_cases hrel : isRelName meta k = true
  · cases v <;> simp only [cleanEntry, hskp, hrel, Bool.false_eq_true, if_false,
      if_true] at h <;> cases h <;>
      exact ⟨by simp, fun _ => by simp⟩
  · have hrelf : isRelName meta k = false := by simpa using hrel
    cases v <;> simp only [cleanEntry, hskp, hrelf, Bool.false_eq_true, if_false,
      if_true] at h <;> cases h <;>
      exact ⟨by simp, fun hc => absurd hc (by simp [hrelf])⟩

/-- C2: when serializing for persistence (`_toFirestore(true)`), a relation
field holding a resolved instance with an identity key collapses to a
lightweight pointer (related collection name + key); a resolved instance
without an identity key becomes null with a warning; and the `update`
cleaning loop never lets a resolved instance into the emitted patch. -/
theorem serialize_relation_collapse (meta : ModelMeta) (inst : Inst) (k : String) :
    (∀ rid tag, isRelName meta k = true → k ≠ "id" → isInternalKey k = false →
        (k, Value.vinst (some rid) tag) ∈ inst.fields →
        (k, Value.vdocRef (relCollD meta k) rid) ∈ (toFirestore true meta inst).1) ∧
    (∀ tag, isRelName meta k = true → k ≠ "id" → isInternalKey k = false →
        (k, Value.vinst none tag) ∈ inst.fields →
        (k, Value.vnull) ∈ (toFirestore true meta inst).1 ∧
        Event.warnRelNoId k ∈ (toFirestore true meta inst).2) ∧
    (∀ patch, isRelName meta k = true →
        (∀ v, (k, v) ∈ patch → ∃ oid tag, v = .vinst oid tag) →
        ∀ w, (k, w) ∉ cleanPatch meta inst patch) := by
  refine ⟨?_, ?_, ?_⟩
  · intro rid tag hrel hid hus hmem
    refine (mem_keyedFilterMap (emitField true meta) inst.fields k _).2
      ⟨.vinst (some rid) tag, hmem, ?_⟩
    simp [emitField, skipKey, hid, hus, hrel]
  · intro tag hrel hid hus hmem
    constructor
    · refine (mem_keyedFilterMap (emitField true meta) inst.fields k _).2
        ⟨.vinst none tag, hmem, ?_⟩
      simp [emitField, skipKey, hid, hus, hrel]
    · refine List.mem_filterMap.2 ⟨(k, .vinst none tag), hmem, ?_⟩
      simp [warnOf, skipKey, hid, hus, hrel]
  · intro patch hrel hall w hmem
    obtain ⟨v, hvmem, hce⟩ :=
      (mem_keyedFilterMap (cleanEntry meta inst.fields) patch k w).1 hmem
    obtain ⟨oid, tag, hv⟩ := hall v hvmem
    subst hv
    by_cases hsk : skipKey k (getF inst.fields k) = true
    · rw [cleanEntry, if_pos hsk] at hce
      exact Option.noConfusion hce
    · rw [cleanEntry, if_neg hsk] at hce
      simp only [hrel, if_true] at hce
      exact Option.noConfusion hce

/-- Concrete employee metadata: two lazy relations. -/
def metaR : ModelMeta :=
  ⟨"Employee", "employees",
   [⟨"dept", "departments", true⟩, ⟨"boss", "employees", true⟩], [], []⟩

/-- Concrete populated employee: `dept` resolved with a key, `boss` resolved
without one. -/
def empR : Inst :=
  ⟨some "e1", [("dept", .vinst (some "d9") 3), ("boss", .vinst none 4)], []⟩

/-- Witness for C2 at concrete inputs: the keyed resolved relation collapses
to a pointer, the keyless one becomes null with a warning, and a resolved
instance never survives patch cleaning. -/
theorem serialize_relation_collapse_witness :
    ("dept", Value.vdocRef "departments" "d9") ∈ (toFirestore true metaR empR).1 ∧
    ("boss", Value.vnull) ∈ (toFirestore true metaR empR).1 ∧
    Event.warnRelNoId "boss" ∈ (toFirestore true metaR empR).2 ∧
    ("dept", Value.vdocRef "departments" "d9") ∉
      cleanPatch metaR empR [("dept", .vinst (some "d9") 3)] :=
  ⟨(serialize_relation_collapse metaR empR "dept").1 "d9" 3 rfl (by decide)
      (by decide) (by decide),
   ((serialize_relation_collapse metaR empR "boss").2.1 4 rfl (by decide)
      (by decide) (by decide)).1,
   ((serialize_relation_collapse metaR empR "boss").2.1 4 rfl (by decide)
      (by decide) (by decide)).2,
   (serialize_relation_collapse metaR empR "dept").2.2
      [("dept", .vinst (some "d9") 3)] rfl
      (by intro v hv; simp at hv; exact ⟨some "d9", 3, hv⟩) _⟩

/-- C8: `update` without an identity key fails fatally without contacting the
store; the cleaned patch drops identity/internal/function-valued keys, keeps
relation fields only as explicit null, pointer or opaque sentinel, passes
sentinels through, and normalizes `Date` values to timestamps; an empty
cleaned patch warns and returns without calling the store. -/
theorem update_precondition_and_cleaning (env : UpdateEnv) (inst : Inst)
    (patch : List (String × Value)) :
    (inst.id = none → update env inst patch = (.error .noId, inst, [])) ∧
    (∀ k w, (k, w) ∈ cleanPatch env.meta inst patch →
        k ≠ "id" ∧ isInternalKey k = false ∧ getF inst.fields k ≠ some .vfunc ∧
        (∀ ms, w ≠ .vdate ms) ∧
        (isRelName env.meta k = true →
            w = .vnull ∨ (∃ c d, w = .vdocRef c d) ∨ (∃ s, w = .vfv s))) ∧
    (∀ k s, (k, Value.vfv s) ∈ patch → skipKey k (getF inst.fields k) = false →
        (k, Value.vfv s) ∈ cleanPatch env.meta inst patch) ∧
    (∀ k ms, (k, Value.vdate ms) ∈ patch → skipKey k (getF inst.fields k) = false →
        isRelName env.meta k = false →
        (k, Value.vtimestamp ms) ∈ cleanPatch env.meta inst patch) ∧
    (∀ i, inst.id = some i → cleanPatch env.meta inst patch = [] →
        update env inst patch =
          (.ok (match env.ctx with | some _ => .pending | none => .fakeAck), inst,
           [.warnEmptyUpdate])) := by
  refine ⟨?_, ?_, ?_, ?_, ?_⟩
  · intro h
    simp [update, h]
  · intro k w hmem
    obtain ⟨v, hvmem, hce⟩ :=
      (mem_keyedFilterMap (cleanEntry env.meta inst.fields) patch k w).1 hmem
    exact cleanEntry_prop hce
  · intro k s hmem hsk
    refine (mem_keyedFilterMap (cleanEntry env.meta inst.fields) patch k _).2
      ⟨.vfv s, hmem, ?_⟩
    rw [cleanEntry, if_neg (by simp [hsk])]
  · intro k ms hmem hsk hrel
    refine (mem_keyedFilterMap (cleanEntry env.meta inst.fields) patch k _).2
      ⟨.vdate ms, hmem, ?_⟩
    rw [cleanEntry, if_neg (by simp [hsk])]
    simp [hrel]
  · intro i hi hempty
    simp [update, hi, hempty]

/-- Concrete update environment without ambient context. -/
def envU : UpdateEnv := ⟨metaR, none, .ok 9⟩

/-- Concrete employee with an identity key. -/
def empU : Inst := ⟨some "e1", [("name", .vstr "Bob")], []⟩

/-- Concrete employee without an identity key. -/
def empU0 : Inst := ⟨none, [("name", .vstr "Bob")], []⟩

/-- Witness for C8 at concrete inputs: no id is fatal with an empty trace; a
sentinel survives cleaning; a patch reduced to nothing warns and skips the
store. -/
theorem update_precondition_and_cleaning_witness :
    update envU empU0 [("name", .vstr "X")] = (.error .noId, empU0, []) ∧
    ("a", Value.vfv .serverTimestamp) ∈
      cleanPatch envU.meta empU [("a", .vfv .serverTimestamp)] ∧
    update envU empU [("dept", .vinst (some "d") 1)] =
      (.ok .fakeAck, empU, [.warnEmptyUpdate]) :=
  ⟨(update_precondition_and_cleaning envU empU0 _).1 rfl,
   (update_precondition_and_cleaning envU empU _).2.2.1 "a" .serverTimestamp
     (by decide) (by decide),
   (update_precondition_and_cleaning envU empU _).2.2.2.2 "e1" rfl (by decide)⟩

/-- C5: a `populate` of a relation field already present in the
populated-relations cache (even cached as null) assigns the cached value and
performs no fetch (empty event trace); consequently a second `populate` of a
field resolved by a first `populate` issues no additional fetch and yields
the identical cached value. -/
theorem populate_cache_short_circuit (env : PopEnv) (inst : Inst) (f : String) :
    (∀ rm cv, env.meta.relations.find? (fun r => r.propertyName == f) = some rm →
        getF inst.cache f = some cv →
        populate env inst (.names [f]) =
          ({ inst with fields := setEntry inst.fields f cv }, [])) ∧
    (∀ rm c d, env.meta.relations.find? (fun r => r.propertyName == f) = some rm →
        getF inst.cache f = none →
        getF inst.fields f = some (.vdocRef c d) →
        (populate env (populate env inst (.names [f])).1 (.names [f])).2 = [] ∧
        getF ((populate env (populate env inst (.names [f])).1 (.names [f])).1).fields f =
          getF ((populate env inst (.names [f])).1).fields f) := by
  constructor
  · intro rm cv hfind hcache
    simp [populate, populateNames, popField, hfind, hcache]
  · intro rm c d hfind hcache hfield
    cases hres : env.fetch rm.relatedColl d with
    | found oid tag =>
        have h1 : populate env inst (.names [f]) =
            ({ inst with fields := setEntry inst.fields f (.vinst oid tag)
                         cache := setEntry inst.cache f (.vinst oid tag) },
             [.relFetch f rm.relatedColl d]) := by
          simp [populate, populateNames, popField, hfind, hcache, hfield, hres]
        rw [h1]
        constructor
        · simp [populate, populateNames, popField, hfind, getF_setEntry_self]
        · simp [populate, populateNames, popField, hfind, getF_setEntry_self]
    | notFound =>
        have h1 : populate env inst (.names [f]) =
            ({ inst with fields := setEntry inst.fields f .vnull
                         cache := setEntry inst.cache f .vnull },
             [.relFetch f rm.relatedColl d]) := by
          simp [populate, populateNames, popField, hfind, hcache, hfield, hres]
        rw [h1]
        constructor
        · simp [populate, populateNames, popField, hfind, getF_setEntry_self]
        · simp [populate, populateNames, popField, hfind, getF_setEntry_self]
    | err =>
        have h1 : populate env inst (.names [f]) =
            ({ inst with fields := setEntry inst.fields f .vnull
                         cache := setEntry inst.cache f .vnull },
             [.relFetch f rm.relatedColl d, .logError]) := by
          simp [populate, populateNames, popField, hfind, hcache, hfield, hres]
        rw [h1]
        constructor
        · simp [populate, populateNames, popField, hfind, getF_setEntry_self]
        · simp [populate, populateNames, popField, hfind, getF_setEntry_self]

/-- Populate environment where every fetch succeeds. -/
def popEnvW : PopEnv := ⟨metaR, fun _ _ => .found (some "d9") 5⟩

/-- Employee with `dept` cached as null. -/
def empCached : Inst :=
  ⟨some "e1", [("dept", .vdocRef "departments" "d9")], [("dept", .vnull)]⟩

/-- Employee with an unresolved `dept` pointer and an empty cache. -/
def empFresh : Inst := ⟨some "e1", [("dept", .vdocRef "departments" "d9")], []⟩

/-- Witness for C5 at concrete inputs: a cached-null field is assigned from
the cache with no fetch; re-populating a freshly populated field fetches
nothing and keeps the value. -/
theorem populate_cache_short_circuit_witness :
    populate popEnvW empCached (.names ["dept"]) =
      (⟨some "e1", [("dept", Value.vnull)], [("dept", Value.vnull)]⟩, []) ∧
    (populate popEnvW (populate popEnvW empFresh (.names ["dept"])).1
        (.names ["dept"])).2 = [] := by
  constructor
  · have h := (populate_cache_short_circuit popEnvW empCached "dept").1
      ⟨"dept", "departments", true⟩ .vnull (by decide) (by decide)
    rw [h]
    rfl
  · exact ((populate_cache_short_circuit popEnvW empFresh "dept").2
      ⟨"dept", "departments", true⟩ "departments" "d9" (by decide) (by decide)
      (by decide)).1

/-- C6: when one relation fetch fails during `populate`, the failure is
contained: the error is logged, that field is assigned and cached as null,
and every other requested field is still resolved; the call itself returns
normally (the embedding is a total function: the `try/catch` around each
fetch keeps the loop alive). -/
theorem populate_fetch_failure_contained (env : PopEnv) (inst : Inst)
    (f g : String) (rmf rmg : RelationMeta) (cf df cg dg : String)
    (oid : Option String) (tag : Nat)
    (hfg : f ≠ g)
    (hf : env.meta.relations.find? (fun r => r.propertyName == f) = some rmf)
    (hg : env.meta.relations.find? (fun r => r.propertyName == g) = some rmg)
    (hcf : getF inst.cache f = none) (hcg : getF inst.cache g = none)
    (hff : getF inst.fields f = some (.vdocRef cf df))
    (hfgv : getF inst.fields g = some (.vdocRef cg dg))
    (hef : env.fetch rmf.relatedColl df = .err)
    (heg : env.fetch rmg.relatedColl dg = .found oid tag) :
    Event.logError ∈ (populate env inst (.names [f, g])).2 ∧
    getF ((populate env inst (.names [f, g])).1).fields f = some .vnull ∧
    getF ((populate env inst (.names [f, g])).1).cache f = some .vnull ∧
    getF ((populate env inst (.names [f, g])).1).fields g = some (.vinst oid tag) ∧
    getF ((populate env inst (.names [f, g])).1).cache g = some (.vinst oid tag) := by
  have hgf : g ≠ f := Ne.symm hfg
  have h1 : populateNames env inst [f, g] =
      popField env
        ({ inst with fields := setEntry inst.fields f .vnull
                     cache := setEntry inst.cache f .vnull },
         [.relFetch f rmf.relatedColl df, .logError]) g := by
    simp [populateNames, popField, hf, hcf, hff, hef]
  have hcg1 : getF (setEntry inst.cache f Value.vnull) g = none := by
    rw [getF_setEntry_ne _ _ _ _ hgf]
    exact hcg
  have hfg1 : getF (setEntry inst.fields f Value.vnull) g = some (.vdocRef cg dg) := by
    rw [getF_setEntry_ne _ _ _ _ hgf]
    exact hfgv
  have h2 : populate env inst (.names [f, g]) =
      ({ inst with
           fields := setEntry (setEntry inst.fields f .vnull) g (.vinst oid tag)
           cache := setEntry (setEntry inst.cache f .vnull) g (.vinst oid tag) },
       [.relFetch f rmf.relatedColl df, .logError, .relFetch g rmg.relatedColl dg]) := by
    rw [populate, h1]
    simp [popField, hg, hcg1, hfg1, heg]
  rw [h2]
  refine ⟨by simp, ?_, ?_, ?_, ?_⟩
  · rw [getF_setEntry_ne _ _ _ _ hfg, getF_setEntry_self]
  · rw [getF_setEntry_ne _ _ _ _ hfg, getF_setEntry_self]
  · rw [getF_setEntry_self]
  · rw [getF_setEntry_self]

/-- Populate environment where department fetches throw and employee fetches
succeed. -/
def popEnvErr : PopEnv :=
  ⟨metaR, fun c _ => if c == "departments" then .err else .found (some "b7") 8⟩

/-- Employee with two unresolved pointers. -/
def empTwo : Inst :=
  ⟨some "e1",
   [("dept", .vdocRef "departments" "d1"), ("boss", .vdocRef "employees" "b7")], []⟩

/-- Witness for C6 at concrete inputs: the failing `dept` fetch is logged and
nulled while `boss` still resolves. -/
theorem populate_fetch_failure_contained_witness :
    Event.logError ∈ (populate popEnvErr empTwo (.names ["dept", "boss"])).2 ∧
    getF ((populate popEnvErr empTwo (.names ["dept", "boss"])).1).fields "dept" =
      some .vnull ∧
    getF ((populate popEnvErr empTwo (.names ["dept", "boss"])).1).fields "boss" =
      some (.vinst (some "b7") 8) :=
  ⟨(populate_fetch_failure_contained popEnvErr empTwo "dept" "boss"
      ⟨"dept", "departments", true⟩ ⟨"boss", "employees", true⟩
      "departments" "d1" "employees" "b7" (some "b7") 8
      (by decide) (by decide) (by decide) (by decide) (by decide)
      (by decide) (by decide) (by decide) (by decide)).1,
   (populate_fetch_failure_contained popEnvErr empTwo "dept" "boss"
      ⟨"dept", "departments", true⟩ ⟨"boss", "employees", true⟩
      "departments" "d1" "employees" "b7" (some "b7") 8
      (by decide) (by decide) (by decide) (by decide) (by decide)
      (by decide) (by decide) (by decide) (by decide)).2.1,
   (populate_fetch_failure_contained popEnvErr empTwo "dept" "boss"
      ⟨"dept", "departments", true⟩ ⟨"boss", "employees", true⟩
      "departments" "d1" "employees" "b7" (some "b7") 8
      (by decide) (by decide) (by decide) (by decide) (by decide)
      (by decide) (by decide) (by decide) (by decide)).2.2.2.1⟩

/-! ## Round-trip machinery for the mapper -/

theorem getF_append_some (a b : List (String × Value)) (k : String) {v : Value}
    (h : getF a k = some v) : getF (a ++ b) k = some v := by
  rw [getF_append, h]
  rfl

theorem getF_append_none (a b : List (String × Value)) (k : String)
    (h : getF a k = none) : getF (a ++ b) k = getF b k := by
  rw [getF_append, h]
  rfl

/-- Lookup is stable under splitting an association list into the entries
failing a predicate followed by those passing it, provided keys are unique —
this is exactly the field split `_fromFirestore` performs. -/
theorem getF_partition_append (l : List (String × Value)) (q : String × Value → Bool)
    (hnd : (l.map Prod.fst).Nodup) (k : String) :
    getF (l.filter (fun p => !(q p)) ++ l.filter q) k = getF l k := by
  induction l with
  | nil => simp
  | cons p rest ih =>
      obtain ⟨k₀, v₀⟩ := p
      simp only [List.map_cons, List.nodup_cons] at hnd
      have ihr := ih hnd.2
      by_cases hq : q (k₀, v₀)
      · have e1 : List.filter (fun p => !(q p)) ((k₀, v₀) :: rest) =
            List.filter (fun p => !(q p)) rest := by
          simp [List.filter_cons, hq]
        have e2 : List.filter q ((k₀, v₀) :: rest) = (k₀, v₀) :: List.filter q rest := by
          simp [List.filter_cons, hq]
        rw [e1, e2]
        by_cases hk : k₀ = k
        · subst hk
          have hnone : getF (List.filter (fun p => !(q p)) rest) k₀ = none := by
            apply getF_eq_none_of_not_mem_keys
            intro hmem
            exact hnd.1 (((List.filter_sublist rest).map Prod.fst).subset hmem)
          rw [getF_append_none _ _ _ hnone, getF_cons, if_pos rfl,
            getF_cons, if_pos rfl]
        · cases hres : getF (List.filter (fun p => !(q p)) rest) k with
          | some v =>
              have hcomb := ihr
              rw [getF_append_some _ _ _ hres] at hcomb
              rw [getF_append_some _ _ _ hres, getF_cons, if_neg hk, ← hcomb]
          | none =>
              have hcomb := ihr
              rw [getF_append_none _ _ _ hres] at hcomb
              rw [getF_append_none _ _ _ hres, getF_cons, if_neg hk, getF_cons,
                if_neg hk]
              exact hcomb
      · have e1 : List.filter (fun p => !(q p)) ((k₀, v₀) :: rest) =
            (k₀, v₀) :: List.filter (fun p => !(q p)) rest := by
          simp [List.filter_cons, hq]
        have e2 : List.filter q ((k₀, v₀) :: rest) = List.filter q rest := by
          simp [List.filter_cons, hq]
        rw [e1, e2]
        by_cases hk : k₀ = k
        · subst hk
          rw [List.cons_append, getF_cons, if_pos rfl, getF_cons, if_pos rfl]
        · rw [List.cons_append, getF_cons, if_neg hk, ihr, getF_cons, if_neg hk]

/-- Keys of the mapped document are unique when the instance's field keys
are. -/
theorem toFirestore_keys_nodup (s : Bool) (meta : ModelMeta) (inst : Inst)
    (hnd : (inst.fields.map Prod.fst).Nodup) :
    (((toFirestore s meta inst).1).map Prod.fst).Nodup :=
  List.Nodup.sublist (keyedFilterMap_keys_sublist _ _) hnd

/-- Lookup in the instance produced by `_fromFirestore` coincides with lookup
in the snapshot data: the constructor receives the non-reference entries and
the relation references are assigned afterwards, which only reorders distinct
keys. -/
theorem getF_fromFirestore (meta : ModelMeta) (snapId : String)
    (doc : List (String × Value)) (hnd : (doc.map Prod.fst).Nodup) (k : String) :
    getF (fromFirestore meta snapId doc).fields k = getF doc k := by
  simp only [fromFirestore]
  exact getF_partition_append doc _ hnd k

/-- The declared-shape check of a field value, per the decorator schemas:
relation properties (declared `@Relation`, validated by
`DocumentReferenceField` as reference-or-instance-or-null) hold a pointer, a
resolved instance or null; plain declared fields hold scalar / timestamp /
geo / array-map data or null. Sentinels, raw `Date`s, `undefined` and
functions are not declared-shape values. -/
def declMatches (meta : ModelMeta) (k : String) (v : Value) : Bool :=
  match v with
  | .vdocRef _ _ => isRelName meta k
  | .vinst _ _ => isRelName meta k
  | .vnull => true
  | .vstr _ => !(isRelName meta k)
  | .vnum _ => !(isRelName meta k)
  | .vbool _ => !(isRelName meta k)
  | .vtimestamp _ => !(isRelName meta k)
  | .vgeo _ _ => !(isRelName meta k)
  | .vother _ => !(isRelName meta k)
  | .vundef => false
  | .vdate _ => false
  | .vfv _ => false
  | .vfunc => false

/-- An instance whose set fields all match the declared shape (and use
ordinary data property names). -/
def wellFormed (meta : ModelMeta) (inst : Inst) : Bool :=
  inst.fields.all
    (fun p => p.1 != "id" && !(isInternalKey p.1) && declMatches meta p.1 p.2)

/-- On a well-formed non-relation-instance value, persist-mode emission is
the identity. -/
theorem emitField_id_of_wellFormed (meta : ModelMeta) (k : String) (v : Value)
    (hid : k ≠ "id") (hin : isInternalKey k = false)
    (hdm : declMatches meta k v = true)
    (hni : ∀ oid tag, v ≠ .vinst oid tag) :
    emitField true meta k v = some v := by
  have hid' : (k == "id") = false := beq_eq_false_iff_ne.mpr hid
  by_cases hrel : isRelName meta k = true
  · cases v <;> simp_all [declMatches, emitField, skipKey]
  · have hrelf : isRelName meta k = false := by simpa using hrel
    cases v <;> simp_all [declMatches, emitField, skipKey]

/-- Amended C4 (round-trip at the pointer level): for every instance with
unique field keys whose set fields all match the declared shape, composing
persist-mode `toStorage` with `fromStorage` preserves every field value,
except relation fields holding a resolved instance: one with an identity key
comes back as the corresponding lightweight pointer (related collection +
key), while one without an identity key comes back as null (the warn-and-null
collapse); the identity key of the round-tripped instance is the snapshot
key. -/
theorem roundtrip_pointer_level (meta : ModelMeta) (snapId : String) (inst : Inst)
    (hnd : (inst.fields.map Prod.fst).Nodup)
    (hwf : wellFormed meta inst = true) :
    (fromFirestore meta snapId (toFirestore true meta inst).1).id = some snapId ∧
    (∀ k v, getF inst.fields k = some v → (∀ oid tag, v ≠ .vinst oid tag) →
        getF (fromFirestore meta snapId (toFirestore true meta inst).1).fields k =
          some v) ∧
    (∀ k rid tag, getF inst.fields k = some (.vinst (some rid) tag) →
        getF (fromFirestore meta snapId (toFirestore true meta inst).1).fields k =
          some (.vdocRef (relCollD meta k) rid)) ∧
    (∀ k tag, getF inst.fields k = some (.vinst none tag) →
        getF (fromFirestore meta snapId (toFirestore true meta inst).1).fields k =
          some Value.vnull) := by
  have hdnd := toFirestore_keys_nodup true meta inst hnd
  have hrt : ∀ k,
      getF (fromFirestore meta snapId (toFirestore true meta inst).1).fields k =
        (getF inst.fields k).bind (emitField true meta k) := by
    intro k
    rw [getF_fromFirestore _ _ _ hdnd, getF_toFirestore _ _ _ hnd]
  refine ⟨rfl, ?_, ?_, ?_⟩
  · intro k v hv hni
    have hprops := List.all_eq_true.mp hwf _ (getF_some_mem hv)
    simp only [Bool.and_eq_true, bne_iff_ne, Bool.not_eq_true'] at hprops
    obtain ⟨⟨hid, hin⟩, hdm⟩ := hprops
    rw [hrt k, hv, Option.some_bind]
    exact emitField_id_of_wellFormed meta k v hid hin hdm hni
  · intro k rid tag hv
    have hprops := List.all_eq_true.mp hwf _ (getF_some_mem hv)
    simp only [Bool.and_eq_true, bne_iff_ne, Bool.not_eq_true'] at hprops
    obtain ⟨⟨hid, hin⟩, hdm⟩ := hprops
    have hid' : (k == "id") = false := beq_eq_false_iff_ne.mpr hid
    have hrel : isRelName meta k = true := by
      by_cases h : isRelName meta k = true
      · exact h
      · exfalso
        have hrelf : isRelName meta k = false := by simpa using h
        simp [declMatches, hrelf] at hdm
    rw [hrt k, hv, Option.some_bind]
    simp [emitField, skipKey, hid', hin, hrel]
  · intro k tag hv
    have hprops := List.all_eq_true.mp hwf _ (getF_some_mem hv)
    simp only [Bool.and_eq_true, bne_iff_ne, Bool.not_eq_true'] at hprops
    obtain ⟨⟨hid, hin⟩, hdm⟩ := hprops
    have hid' : (k == "id") = false := beq_eq_false_iff_ne.mpr hid
    have hrel : isRelName meta k = true := by
      by_cases h : isRelName meta k = true
      · exact h
      · exfalso
        have hrelf : isRelName meta k = false := by simpa using h
        simp [declMatches, hrelf] at hdm
    rw [hrt k, hv, Option.some_bind]
    simp [emitField, skipKey, hid', hin, hrel]

/-- Pointer recognizer (a lightweight pointer is a `DocumentReference`). -/
def isPointer : Value → Bool
  | .vdocRef _ _ => true
  | _ => false

/-- Metadata with one lazy relation `r` to collection `others`. -/
def metaC4 : ModelMeta := ⟨"M", "ms", [⟨"r", "others", true⟩], [], []⟩

/-- Instance whose relation field holds a resolved instance WITHOUT an
identity key — it matches the declared shape, yet does not round-trip to a
pointer. -/
def objC4 : Inst := ⟨some "a", [("r", .vinst none 7)], []⟩

/-- Counterexample to C4 as stated: a declared-shape instance whose relation
field holds a resolved instance without an identity key round-trips to null —
neither the original value nor a lightweight pointer. -/
theorem roundtrip_counterexample :
    wellFormed metaC4 objC4 = true ∧
    getF objC4.fields "r" = some (.vinst none 7) ∧
    getF (fromFirestore metaC4 "a" (toFirestore true metaC4 objC4).1).fields "r" =
      some Value.vnull ∧
    some Value.vnull ≠ some (Value.vinst none 7) ∧
    isPointer Value.vnull = false := by
  decide

/-- Instance with a keyed resolved relation and a plain number field. -/
def objC4b : Inst := ⟨some "a", [("r", .vinst (some "x7") 7), ("n", .vnum 5)], []⟩

/-- Witness for the amended C4 at concrete inputs: the plain field survives
the round trip unchanged and the keyed resolved relation comes back as the
pointer into the related collection. -/
theorem roundtrip_pointer_level_witness :
    getF (fromFirestore metaC4 "a" (toFirestore true metaC4 objC4b).1).fields "n" =
      some (.vnum 5) ∧
    getF (fromFirestore metaC4 "a" (toFirestore true metaC4 objC4b).1).fields "r" =
      some (.vdocRef "others" "x7") :=
  ⟨(roundtrip_pointer_level metaC4 "a" objC4b (by decide) (by decide)).2.1 "n"
      (.vnum 5) (by decide) (fun _ _ h => Value.noConfusion h),
   (roundtrip_pointer_level metaC4 "a" objC4b (by decide) (by decide)).2.2.1 "r"
      "x7" 7 (by decide)⟩

/-! ## Lemmas for `reload` -/

theorem getF_overwriteFields_of_none (l : List (String × Value)) :
    ∀ (base : List (String × Value)) (k : String), getF l k = none →
      getF (overwriteFields base l) k = getF base k := by
  induction l with
  | nil => intro base k _; rfl
  | cons p rest ih =>
      intro base k h
      obtain ⟨k₀, v₀⟩ := p
      rw [getF_cons] at h
      by_cases hk : k₀ = k
      · rw [if_pos hk] at h
        exact Option.noConfusion h
      · rw [if_neg hk] at h
        show getF (overwriteFields (setEntry base k₀ v₀) rest) k = getF base k
        rw [ih _ k h, getF_setEntry_ne _ _ _ _ (fun hh => hk hh.symm)]

theorem getF_overwriteFields_of_some (l : List (String × Value)) :
    ∀ (base : List (String × Value)) (k : String) (v : Value),
      (l.map Prod.fst).Nodup → getF l k = some v →
      getF (overwriteFields base l) k = some v := by
  induction l with
  | nil => intro base k v _ h; exact Option.noConfusion h
  | cons p rest ih =>
      intro base k v hnd h
      obtain ⟨k₀, v₀⟩ := p
      simp only [List.map_cons, List.nodup_cons] at hnd
      rw [getF_cons] at h
      by_cases hk : k₀ = k
      · rw [if_pos hk] at h
        cases h
        subst hk
        have hnone : getF rest k₀ = none :=
          getF_eq_none_of_not_mem_keys rest k₀ hnd.1
        show getF (overwriteFields (setEntry base k₀ v) rest) k₀ = some v
        rw [getF_overwriteFields_of_none rest _ k₀ hnone, getF_setEntry_self]
      · rw [if_neg hk] at h
        exact ih _ k v hnd.2 h

theorem getF_dropIdKey_ne (l : List (String × Value)) (k : String) (hk : k ≠ "id") :
    getF (dropIdKey l) k = getF l k := by
  induction l with
  | nil => rfl
  | cons p rest ih =>
      obtain ⟨k₀, v₀⟩ := p
      by_cases h0 : k₀ = "id"
      · have hne : ¬ k₀ = k := fun hh => hk (hh ▸ h0)
        rw [show dropIdKey ((k₀, v₀) :: rest) = dropIdKey rest by
              simp [dropIdKey, List.filter_cons, h0]]
        rw [ih, getF_cons, if_neg hne]
      · rw [show dropIdKey ((k₀, v₀) :: rest) = (k₀, v₀) :: dropIdKey rest by
              simp [dropIdKey, List.filter_cons, h0]]
        by_cases h1 : k₀ = k
        · rw [getF_cons, getF_cons, if_pos h1, if_pos h1]
        · rw [getF_cons, getF_cons, if_neg h1, if_neg h1, ih]

theorem getF_dropIdKey_of_none (l : List (String × Value)) (k : String)
    (h : getF l k = none) : getF (dropIdKey l) k = none := by
  by_cases hk : k = "id"
  · subst hk
    apply getF_eq_none_of_not_mem_keys
    intro hmem
    obtain ⟨p, hp, hpk⟩ := List.mem_map.mp hmem
    have := (List.mem_filter.mp hp).2
    rw [hpk] at this
    simp at this
  · rw [getF_dropIdKey_ne l k hk]
    exact h

/-- Values cached by the re-seed pass: resolved instances and explicit
null. -/
def isInstOrNull : Value → Bool
  | .vnull => true
  | .vinst _ _ => true
  | _ => false

theorem reseedStep_ne (fields c : List (String × Value)) (rm : RelationMeta)
    (k : String) (hk : k ≠ rm.propertyName) :
    getF (reseedStep fields c rm) k = getF c k := by
  unfold reseedStep
  cases hm : getF fields rm.propertyName with
  | none => rfl
  | some w =>
      cases w <;>
        first
          | rfl
          | rw [getF_setEntry_ne _ _ _ _ hk]

theorem reseedStep_writes (fields c : List (String × Value)) (rm : RelationMeta)
    (v : Value) (hf : getF fields rm.propertyName = some v)
    (hio : isInstOrNull v = true) :
    getF (reseedStep fields c rm) rm.propertyName = some v := by
  unfold reseedStep
  cases v <;> simp only [isInstOrNull] at hio <;>
    first
      | exact Bool.noConfusion hio
      | (rw [hf]; exact getF_setEntry_self _ _ _)

theorem reseed_fold_stable (fields : List (String × Value)) (k : String) (v : Value)
    (hf : getF fields k = some v) (hio : isInstOrNull v = true) :
    ∀ (rl : List RelationMeta) (base : List (String × Value)),
      getF base k = some v →
      getF (rl.foldl (reseedStep fields) base) k = some v := by
  intro rl
  induction rl with
  | nil => intro base hbase; exact hbase
  | cons rm rest ih =>
      intro base hbase
      apply ih
      by_cases hk : k = rm.propertyName
      · subst hk
        exact reseedStep_writes fields base rm v hf hio
      · rw [reseedStep_ne fields base rm k hk]
        exact hbase

theorem reseed_fold_mem (fields : List (String × Value)) (k : String) (v : Value)
    (hf : getF fields k = some v) (hio : isInstOrNull v = true) :
    ∀ (rl : List RelationMeta) (base : List (String × Value)) (rm : RelationMeta),
      rm ∈ rl → rm.propertyName = k →
      getF (rl.foldl (reseedStep fields) base) k = some v := by
  intro rl
  induction rl with
  | nil => intro base rm hmem; exact absurd hmem (List.not_mem_nil rm)
  | cons r0 rest ih =>
      intro base rm hmem hname
      rcases List.mem_cons.mp hmem with h0 | h0
      · subst h0
        subst hname
        rw [List.foldl_cons]
        apply reseed_fold_stable fields _ v hf hio
        exact reseedStep_writes fields base rm v hf hio
      · exact ih _ rm h0 hname

/-- Projection of a successful `reload` result (the failing case yields a
dummy empty instance, unused by the theorems). -/
def okInst : Except ReloadErr Inst → Inst
  | .ok r => r
  | .error _ => ⟨none, [], []⟩

/-- Amended C9: `reload` re-fetches by key and fails with a not-found error
carrying the type name and the key when the document is gone; when it exists,
the fields present on the freshly fetched instance overwrite the
corresponding local fields (a local field absent from the fresh instance is
retained, not cleared), the relation cache is replaced by the fresh
instance's cache (which may hold nulls seeded by the eager populate of the
fetch) and then re-seeded for every declared relation whose copied field
value is a resolved instance or explicit null. -/
theorem reload_amended (env : ReloadEnv) (inst : Inst) (i : String)
    (hid : inst.id = some i) :
    ((findByIdModel env i).1 = none →
        (reload env inst).1 = .error (.notFound env.meta.typeName i)) ∧
    (∀ fresh, (findByIdModel env i).1 = some fresh →
        ((dropIdKey fresh.fields).map Prod.fst).Nodup →
        (reload env inst).1 = .ok (okInst (reload env inst).1) ∧
        (okInst (reload env inst).1).id = some i ∧
        (∀ k v, k ≠ "id" → getF fresh.fields k = some v →
            getF (okInst (reload env inst).1).fields k = some v) ∧
        (∀ k v, getF fresh.fields k = none → getF inst.fields k = some v →
            getF (okInst (reload env inst).1).fields k = some v) ∧
        (∀ rm ∈ env.meta.relations, ∀ v,
            getF (okInst (reload env inst).1).fields rm.propertyName = some v →
            isInstOrNull v = true →
            getF (okInst (reload env inst).1).cache rm.propertyName = some v)) := by
  rcases hfi : findByIdModel env i with ⟨ofr, evs⟩
  constructor
  · intro hnone
    simp only at hnone
    subst hnone
    simp [reload, hid, hfi]
  · intro fresh hsome hnd2
    simp only at hsome
    subst hsome
    have hrl : reload env inst =
        (.ok ⟨some i, overwriteFields inst.fields (dropIdKey fresh.fields),
              reseedCache env.meta fresh.cache
                (overwriteFields inst.fields (dropIdKey fresh.fields))⟩, evs) := by
      simp [reload, hid, hfi]
    rw [hrl]
    refine ⟨rfl, rfl, ?_, ?_, ?_⟩
    · intro k v hk hv
      show getF (overwriteFields inst.fields (dropIdKey fresh.fields)) k = some v
      apply getF_overwriteFields_of_some _ _ _ _ hnd2
      rw [getF_dropIdKey_ne _ _ hk]
      exact hv
    · intro k v hnone hv
      show getF (overwriteFields inst.fields (dropIdKey fresh.fields)) k = some v
      rw [getF_overwriteFields_of_none _ _ _ (getF_dropIdKey_of_none _ _ hnone)]
      exact hv
    · intro rm hrm v hfv hio
      show getF (reseedCache env.meta fresh.cache
          (overwriteFields inst.fields (dropIdKey fresh.fields))) rm.propertyName = some v
      unfold reseedCache
      exact reseed_fold_mem _ _ v hfv hio env.meta.relations fresh.cache rm hrm rfl

/-- Success recognizer for a `reload` outcome. -/
def isOkR : Except ReloadErr Inst → Bool
  | .ok _ => true
  | .error _ => false

/-- Metadata with one eager (non-lazy) relation `r`. -/
def metaC9 : ModelMeta := ⟨"M9", "col9", [⟨"r", "others", false⟩], [], []⟩

/-- Reload environment: the stored document now contains only `y` (the old
field `x` and the relation `r` were removed remotely). -/
def envC9 : ReloadEnv := ⟨metaC9, some [("y", .vstr "new")], fun _ _ => .notFound⟩

/-- Local instance holding a stale field `x`. -/
def mObj9 : Inst := ⟨some "d1", [("x", .vstr "old")], []⟩

/-- Counterexample to C9 as stated: after `reload`, the local field `x` —
absent from the fresh document — is NOT overwritten (it keeps its stale
value), and the relation cache holds a null entry for `r` although the
instance's `r` field is neither a resolved instance nor explicit null
(it is absent), so `r` is not left unresolved. -/
theorem reload_counterexample :
    isOkR (reload envC9 mObj9).1 = true ∧
    okInst (reload envC9 mObj9).1 =
      ⟨some "d1", [("x", .vstr "old"), ("y", .vstr "new")], [("r", .vnull)]⟩ ∧
    envC9.storeDoc = some [("y", .vstr "new")] ∧
    getF [("y", Value.vstr "new")] "x" = none ∧
    getF [("x", Value.vstr "old"), ("y", Value.vstr "new")] "x" =
      some (.vstr "old") ∧
    getF [("x", Value.vstr "old"), ("y", Value.vstr "new")] "r" = none ∧
    getF [("r", Value.vnull)] "r" = some Value.vnull := by
  decide

/-- Witness for the amended C9 at concrete inputs: the reload succeeds, keeps
the identity key and copies the fresh field `y`. -/
theorem reload_amended_witness :
    mObj9.id = some "d1" ∧
    (okInst (reload envC9 mObj9).1).id = some "d1" ∧
    getF (okInst (reload envC9 mObj9).1).fields "y" = some (.vstr "new") := by
  have h := (reload_amended envC9 mObj9 "d1" rfl).2
    ⟨some "d1", [("y", .vstr "new")], [("r", .vnull)]⟩ (by decide) (by decide)
  exact ⟨rfl, h.2.1, h.2.2.1 "y" (.vstr "new") (by decide) (by decide)⟩
